import Mathlib

/-!
Verification of the AuraFinance frontend analytics plumbing and of the
spec-described goal/portfolio engine contracts.

Numbers are modelled by `ℚ` (JavaScript floating point arithmetic is modelled
exactly over the rationals), timestamps by `ℤ` (milliseconds, as returned by
`Date.getTime()`), and fallible operations by `Except`.
-/

namespace AuraFinance

/-! ## GoalService (frontend/src/services/goalService.ts)

`calculateMonths` receives a target date; since it only uses the difference
`target.getTime() - today.getTime()`, the embedding takes that signed
millisecond difference `diffMs` directly.  The JavaScript literal `30.44`
is the exact decimal `3044/100` here. -/

namespace GoalService

def calculateMonths (diffMs : ℤ) : ℕ :=
  let diffTime : ℤ := |diffMs|
  let diffDays : ℤ := ⌈(diffTime : ℚ) / (1000 * 60 * 60 * 24)⌉
  (max 1 ⌊(diffDays : ℚ) / (3044 / 100)⌋).toNat

theorem one_le_toNat_max_one (x : ℤ) : 1 ≤ (max 1 x).toNat := by
  have h : (1 : ℤ) ≤ max 1 x := le_max_left _ _
  generalize max 1 x = y at h ⊢
  omega

theorem calculateMonths_pos (diffMs : ℤ) : 1 ≤ calculateMonths diffMs :=
  one_le_toNat_max_one _

theorem calculateMonths_neg (diffMs : ℤ) :
    calculateMonths (-diffMs) = calculateMonths diffMs := by
  unfold calculateMonths
  rw [abs_neg]

end GoalService

/-! ## GoalPlanner scenario metrics (frontend/src/pages/GoalPlanner.tsx)

`getScenarioMetrics` reads the currently selected scenario's projection list
and the goal.  The embedding takes the simulation's success probability, the
goal's target amount, the scenario's projected amounts (the `amount` field of
each projection entry) and the goal's target-date difference in milliseconds.
An empty projection list (a JavaScript `undefined` access) is modelled by the
default value `0`; the theorems below do not depend on that corner. -/

structure ScenarioMetrics where
  probability : ℤ
  gap : ℚ
  amount : ℚ
  isScenarioGood : Bool
  monthlyNeeded : ℚ
  deriving DecidableEq

def getScenarioMetrics (succProb targetAmount : ℚ) (amounts : List ℚ)
    (diffMs : ℤ) : ScenarioMetrics :=
  let finalAmount : ℚ := amounts.getLast?.getD 0
  let gap : ℚ := max 0 (targetAmount - finalAmount)
  let monthlyNeeded : ℚ :=
    if 0 < gap then
      let r : ℚ := 6 / 100 / 12
      let months := GoalService.calculateMonths diffMs
      let denom := ((1 + r) ^ months - 1) / r
      if 0 < denom then gap / denom else 0
    else 0
  { probability := round (succProb * 100)
    gap := gap
    amount := finalAmount
    isScenarioGood := decide (gap ≤ 0)
    monthlyNeeded := monthlyNeeded }

/-- The annuity denominator is positive for the fixed rate `0.06/12` and any
month count produced by `calculateMonths`. -/
theorem annuity_denom_pos (diffMs : ℤ) :
    (0 : ℚ) < ((1 + 6 / 100 / 12) ^ GoalService.calculateMonths diffMs - 1) / (6 / 100 / 12) := by
  have hn := GoalService.calculateMonths_pos diffMs
  have hpow : (1 : ℚ) < (1 + 6 / 100 / 12) ^ GoalService.calculateMonths diffMs := by
    apply one_lt_pow₀ (by norm_num)
    omega
  have hnum : (0 : ℚ) < (1 + 6 / 100 / 12) ^ GoalService.calculateMonths diffMs - 1 := by
    linarith
  positivity

/-- Claim C1: in the goal planner's scenario metrics, whenever the shortfall
gap is strictly positive the suggested extra monthly contribution equals
`gap · r / ((1+r)^n − 1)` with `r = 0.06/12` and `n = calculateMonths` of the
target date; when the gap is zero no extra monthly amount is suggested. -/
theorem scenario_monthly_needed_formula (succProb targetAmount : ℚ)
    (amounts : List ℚ) (diffMs : ℤ) :
    (0 < (getScenarioMetrics succProb targetAmount amounts diffMs).gap →
      (getScenarioMetrics succProb targetAmount amounts diffMs).monthlyNeeded =
        (getScenarioMetrics succProb targetAmount amounts diffMs).gap * (6 / 100 / 12) /
          ((1 + 6 / 100 / 12) ^ GoalService.calculateMonths diffMs - 1)) ∧
    ((getScenarioMetrics succProb targetAmount amounts diffMs).gap = 0 →
      (getScenarioMetrics succProb targetAmount amounts diffMs).monthlyNeeded = 0) := by
  have hdenom := annuity_denom_pos diffMs
  have hn := GoalService.calculateMonths_pos diffMs
  have hpow : (1 : ℚ) < (1 + 6 / 100 / 12) ^ GoalService.calculateMonths diffMs := by
    apply one_lt_pow₀ (by norm_num)
    omega
  constructor
  · intro hgap
    simp only [getScenarioMetrics] at hgap ⊢
    rw [if_pos hgap, if_pos hdenom, div_div_eq_mul_div]
  · intro hgap
    simp only [getScenarioMetrics] at hgap ⊢
    rw [hgap]
    simp

/-- Witness for C1: a concrete goal (target 1000, single projected amount 400,
target date 100 days ahead) has a positive gap of 600, and the suggested
monthly amount matches the annuity formula there; conversely a met target
(projected 1500) yields no suggestion. -/
theorem scenario_monthly_needed_formula_witness :
    ((0 : ℚ) < (getScenarioMetrics (1/2) 1000 [400] 8640000000).gap ∧
      (getScenarioMetrics (1/2) 1000 [400] 8640000000).monthlyNeeded =
        (getScenarioMetrics (1/2) 1000 [400] 8640000000).gap * (6 / 100 / 12) /
          ((1 + 6 / 100 / 12) ^ GoalService.calculateMonths 8640000000 - 1)) ∧
    ((getScenarioMetrics (1/2) 1000 [1500] 8640000000).gap = 0 ∧
      (getScenarioMetrics (1/2) 1000 [1500] 8640000000).monthlyNeeded = 0) := by
  have hpos : (0 : ℚ) < (getScenarioMetrics (1/2) 1000 [400] 8640000000).gap := by
    show (0 : ℚ) < max 0 (1000 - 400)
    exact lt_max_of_lt_right (by norm_num)
  have hzero : (getScenarioMetrics (1/2) 1000 [1500] 8640000000).gap = 0 := by
    show max 0 ((1000 : ℚ) - 1500) = 0
    exact max_eq_left (by norm_num)
  exact ⟨⟨hpos, (scenario_monthly_needed_formula (1/2) 1000 [400] 8640000000).1 hpos⟩,
    ⟨hzero, (scenario_monthly_needed_formula (1/2) 1000 [1500] 8640000000).2 hzero⟩⟩

/-- Claim C3: for every goal and every scenario, the shortfall gap equals
`max 0 (target_amount − final scenario amount)`; it is never negative and is
exactly zero whenever the final amount meets the target. -/
theorem scenario_gap_clamped (succProb targetAmount : ℚ) (amounts : List ℚ)
    (diffMs : ℤ) :
    (getScenarioMetrics succProb targetAmount amounts diffMs).gap =
        max 0 (targetAmount - amounts.getLast?.getD 0) ∧
    0 ≤ (getScenarioMetrics succProb targetAmount amounts diffMs).gap ∧
    (targetAmount ≤ amounts.getLast?.getD 0 →
      (getScenarioMetrics succProb targetAmount amounts diffMs).gap = 0) := by
  refine ⟨rfl, le_max_left _ _, fun h => ?_⟩
  simp only [getScenarioMetrics]
  rw [max_eq_left (by linarith)]

/-- Witness for C3: with target 1000 and a final projected amount of 1200 the
gap is exactly zero. -/
theorem scenario_gap_clamped_witness :
    (getScenarioMetrics (1/2) 1000 [800, 1200] 0).gap =
        max 0 (1000 - ([800, 1200] : List ℚ).getLast?.getD 0) ∧
    0 ≤ (getScenarioMetrics (1/2) 1000 [800, 1200] 0).gap ∧
    (getScenarioMetrics (1/2) 1000 [800, 1200] 0).gap = 0 := by
  obtain ⟨h1, h2, h3⟩ := scenario_gap_clamped (1/2) 1000 [800, 1200] 0
  exact ⟨h1, h2, h3 (by norm_num)⟩

/-- Claim C9: `GoalService.calculateMonths` always returns at least 1, and a
target date `k` days in the past yields the same month count as `k` days in
the future (the absolute value of the date difference is taken first); being a
total function it never errors. -/
theorem calculateMonths_pos_and_symmetric (diffMs : ℤ) :
    1 ≤ GoalService.calculateMonths diffMs ∧
    GoalService.calculateMonths (-diffMs) = GoalService.calculateMonths diffMs :=
  ⟨GoalService.calculateMonths_pos diffMs, GoalService.calculateMonths_neg diffMs⟩

/-! ## Goal simulation endpoint (backend, not among the sources) -/

inductive GoalSimulationError where
  | invalidHorizonError
  deriving DecidableEq

/-- Modelled from the spec: the backend `/goals/simulate` endpoint invoked by
`GoalService.simulateGoal` / `runSimulation` is not among the available
sources; per the spec, a target date in the past or equal to today (a zero or
near-zero horizon, `horizonMs ≤ 0` where `horizonMs` is the signed
millisecond difference between target date and today) fails with
`InvalidHorizonError` before any computation over the zero-length period.
The stochastic projection itself is abstracted as `simulate`. -/
def simulateGoalModel {α : Type} (simulate : ℤ → α) (horizonMs : ℤ) :
    Except GoalSimulationError α :=
  if horizonMs ≤ 0 then .error .invalidHorizonError else .ok (simulate horizonMs)

/-- Claim C2: a goal simulation whose target date is in the past or equal to
today (non-positive horizon) fails with `InvalidHorizonError` instead of
computing a result over a zero-length period. -/
theorem simulateGoal_past_date_errors {α : Type} (simulate : ℤ → α)
    (horizonMs : ℤ) (h : horizonMs ≤ 0) :
    simulateGoalModel simulate horizonMs = .error .invalidHorizonError := by
  simp [simulateGoalModel, h]

/-- Witness for C2: a target date five days in the past errors. -/
theorem simulateGoal_past_date_errors_witness :
    (-432000000 : ℤ) ≤ 0 ∧
    simulateGoalModel (fun z : ℤ => z) (-432000000) = .error .invalidHorizonError :=
  ⟨by decide, simulateGoal_past_date_errors (fun z : ℤ => z) (-432000000) (by decide)⟩

/-! ## SSE streaming hook (frontend/src/hooks/useSSEStream.ts)

`useSSEStream` reads the response body chunk by chunk, keeps incomplete lines
in `messageBuffer`, and dispatches parsed `data: `-prefixed lines through a
`switch` on the message type.  Chunks and lines are modelled as `List Char`;
`JSON.parse` (a JavaScript builtin) is abstracted as a `parse` parameter
returning `Option` (the catch-branch on a parse failure leaves the state
unchanged).  The `completeCalls`/`errorCalls` counters instrument the
`onComplete`/`onError` callback invocations of the hook. -/

inductive SSEType where
  | info
  | log
  | progress
  | complete
  | error
  deriving DecidableEq

structure SSEMessage (α : Type) where
  type : SSEType
  message : Option String
  data : Option α
  progress : Option ℚ
  deriving DecidableEq

structure StreamState (α : Type) where
  logs : List String
  isStreaming : Bool
  result : Option α
  error : Option String
  progress : Option ℚ
  completeCalls : ℕ
  errorCalls : ℕ
  deriving DecidableEq

def applyMsg {α : Type} (st : StreamState α) (m : SSEMessage α) : StreamState α :=
  match m.type with
  | .info | .log =>
      let st1 := match m.progress with
        | some p => { st with progress := some p }
        | none => st
      match m.message with
      | some s => { st1 with logs := st1.logs ++ [s] }
      | none => st1
  | .progress =>
      let st1 := match m.progress with
        | some p => { st with progress := some p }
        | none => st
      match m.message with
      | some s => { st1 with logs := st1.logs ++ [s] }
      | none => st1
  | .complete =>
      { st with logs := st.logs ++ ["✅ Complete!"]
                result := m.data
                isStreaming := false
                progress := some 100
                completeCalls := st.completeCalls + 1 }
  | .error =>
      let errorMsg := m.message.getD "Unknown error"
      { st with logs := st.logs ++ ["❌ Error: " ++ errorMsg]
                error := some errorMsg
                isStreaming := false
                errorCalls := st.errorCalls + 1 }

/-- Start of a run with `autoReset = false` (both convenience hooks use this):
`isStreaming` is raised, the previous error cleared, and the per-run callback
counters begin at zero. -/
def startStream {α : Type} (prev : StreamState α) : StreamState α :=
  { prev with isStreaming := true, error := none, completeCalls := 0, errorCalls := 0 }

def runStream {α : Type} (prev : StreamState α) (msgs : List (SSEMessage α)) :
    StreamState α :=
  msgs.foldl applyMsg (startStream prev)

theorem applyMsg_nonterminal {α : Type} (st : StreamState α) (m : SSEMessage α)
    (hc : m.type ≠ .complete) (he : m.type ≠ .error) :
    (applyMsg st m).completeCalls = st.completeCalls ∧
    (applyMsg st m).errorCalls = st.errorCalls := by
  obtain ⟨t, msg, d, prog⟩ := m
  cases t <;> simp_all [applyMsg] <;> cases prog <;> cases msg <;> simp [applyMsg]

theorem foldl_applyMsg_counters {α : Type} (msgs : List (SSEMessage α))
    (h : ∀ x ∈ msgs, x.type ≠ .complete ∧ x.type ≠ .error) (st : StreamState α) :
    (msgs.foldl applyMsg st).completeCalls = st.completeCalls ∧
    (msgs.foldl applyMsg st).errorCalls = st.errorCalls := by
  induction msgs generalizing st with
  | nil => exact ⟨rfl, rfl⟩
  | cons m rest ih =>
    have hm := h m (List.mem_cons_self _ _)
    have hp := applyMsg_nonterminal st m hm.1 hm.2
    have hr := ih (fun x hx => h x (List.mem_cons_of_mem _ hx)) (applyMsg st m)
    exact ⟨hr.1.trans hp.1, hr.2.trans hp.2⟩

/-- Claim C4: a streaming run whose event sequence terminates in exactly one
terminal event (the spec's guarantee for the `optimize`/`monte_carlo`
streams) delivers the final result exactly once: after the single `complete`
event the hook state has `result` equal to that event's `data`,
`isStreaming = false`, `progress = 100`, and the completion callback has fired
exactly once; after a single terminal `error` event the error callback has
fired exactly once and the error message is recorded with
`isStreaming = false`. -/
theorem stream_terminal_event_once {α : Type} (prev : StreamState α)
    (pre : List (SSEMessage α)) (m : SSEMessage α)
    (hpre : ∀ x ∈ pre, x.type ≠ .complete ∧ x.type ≠ .error) :
    (m.type = .complete →
      (runStream prev (pre ++ [m])).result = m.data ∧
      (runStream prev (pre ++ [m])).isStreaming = false ∧
      (runStream prev (pre ++ [m])).progress = some 100 ∧
      (runStream prev (pre ++ [m])).completeCalls = 1 ∧
      (runStream prev (pre ++ [m])).errorCalls = 0) ∧
    (m.type = .error →
      (runStream prev (pre ++ [m])).error = some (m.message.getD "Unknown error") ∧
      (runStream prev (pre ++ [m])).isStreaming = false ∧
      (runStream prev (pre ++ [m])).errorCalls = 1 ∧
      (runStream prev (pre ++ [m])).completeCalls = 0) := by
  have hfold := foldl_applyMsg_counters pre hpre (startStream prev)
  have hrw : runStream prev (pre ++ [m]) =
      applyMsg (pre.foldl applyMsg (startStream prev)) m := by
    simp [runStream, List.foldl_append]
  have hcc : (pre.foldl applyMsg (startStream prev)).completeCalls = 0 := by
    rw [hfold.1]; rfl
  have hec : (pre.foldl applyMsg (startStream prev)).errorCalls = 0 := by
    rw [hfold.2]; rfl
  constructor
  · intro ht
    rw [hrw]
    simp [applyMsg, ht, hcc, hec]
  · intro ht
    rw [hrw]
    simp [applyMsg, ht, hcc, hec]

/-- Witness for C4: a two-event run `[info "loading" at 10%, complete 42]`
delivers result 42 once with `progress = 100`, and a run
`[info "loading" at 10%, error "boom"]` records the error once. -/
theorem stream_terminal_event_once_witness :
    ((runStream (α := ℕ) ⟨[], false, none, none, none, 0, 0⟩
        ([⟨.info, some "loading", none, some 10⟩] ++ [⟨.complete, none, some 42, none⟩])).result = some 42 ∧
      (runStream (α := ℕ) ⟨[], false, none, none, none, 0, 0⟩
        ([⟨.info, some "loading", none, some 10⟩] ++ [⟨.complete, none, some 42, none⟩])).isStreaming = false ∧
      (runStream (α := ℕ) ⟨[], false, none, none, none, 0, 0⟩
        ([⟨.info, some "loading", none, some 10⟩] ++ [⟨.complete, none, some 42, none⟩])).progress = some 100 ∧
      (runStream (α := ℕ) ⟨[], false, none, none, none, 0, 0⟩
        ([⟨.info, some "loading", none, some 10⟩] ++ [⟨.complete, none, some 42, none⟩])).completeCalls = 1 ∧
      (runStream (α := ℕ) ⟨[], false, none, none, none, 0, 0⟩
        ([⟨.info, some "loading", none, some 10⟩] ++ [⟨.complete, none, some 42, none⟩])).errorCalls = 0) ∧
    ((runStream (α := ℕ) ⟨[], false, none, none, none, 0, 0⟩
        ([⟨.info, some "loading", none, some 10⟩] ++ [⟨.error, some "boom", none, none⟩])).error = some "boom" ∧
      (runStream (α := ℕ) ⟨[], false, none, none, none, 0, 0⟩
        ([⟨.info, some "loading", none, some 10⟩] ++ [⟨.error, some "boom", none, none⟩])).errorCalls = 1) := by
  have hpre : ∀ x ∈ [(⟨.info, some "loading", none, some 10⟩ : SSEMessage ℕ)],
      x.type ≠ SSEType.complete ∧ x.type ≠ SSEType.error := by
    intro x hx
    simp only [List.mem_singleton] at hx
    subst hx
    exact ⟨by simp, by simp⟩
  have h1 := (stream_terminal_event_once ⟨[], false, none, none, none, 0, 0⟩
    [⟨.info, some "loading", none, some 10⟩] ⟨.complete, none, some 42, none⟩ hpre).1 rfl
  have h2 := (stream_terminal_event_once ⟨[], false, none, none, none, 0, 0⟩
    [⟨.info, some "loading", none, some 10⟩] ⟨.error, some "boom", none, none⟩ hpre).2 rfl
  exact ⟨⟨h1.1, h1.2.1, h1.2.2.1, h1.2.2.2.1, h1.2.2.2.2⟩, ⟨h2.1, h2.2.2.1⟩⟩

/-! ### The SSE line buffer

`messageBuffer += chunk; lines = messageBuffer.split('\n');
messageBuffer = lines.pop() || ''` — the buffer mechanism, embedded over
`List Char`.  `splitNl` is the semantics of JavaScript `split('\n')`. -/

def splitNl : List Char → List (List Char)
  | [] => [[]]
  | c :: cs => if c = '\n' then [] :: splitNl cs else (splitNl cs).modifyHead (c :: ·)

/-- One line of the stream loop: only `data: `-prefixed lines are interpreted,
the JSON payload after the 6-character prefix is parsed, and a parse failure
leaves the state unchanged (the catch branch only logs to the console). -/
def lineStep {α : Type} (parse : List Char → Option (SSEMessage α))
    (st : StreamState α) (line : List Char) : StreamState α :=
  if "data: ".toList.isPrefixOf line then
    match parse (line.drop 6) with
    | some m => applyMsg st m
    | none => st
  else st

/-- One iteration of the read loop on a decoded chunk: append to the buffer,
split on newlines, keep the last (incomplete) segment as the new buffer and
process the complete lines. -/
def processChunk {α : Type} (parse : List Char → Option (SSEMessage α))
    (acc : StreamState α × List Char) (chunk : List Char) :
    StreamState α × List Char :=
  let s := acc.2 ++ chunk
  let parts := splitNl s
  (parts.dropLast.foldl (lineStep parse) acc.1, parts.getLastD [])

/-- The whole read loop of one `stream()` call over a list of decoded chunks,
starting with an empty buffer. -/
def processChunks {α : Type} (parse : List Char → Option (SSEMessage α))
    (st : StreamState α) (chunks : List (List Char)) :
    StreamState α × List Char :=
  chunks.foldl (processChunk parse) (st, [])

/-- Character-level automaton equivalent to the split-based buffer loop. -/
def charStep {α : Type} (parse : List Char → Option (SSEMessage α))
    (acc : StreamState α × List Char) (c : Char) : StreamState α × List Char :=
  if c = '\n' then (lineStep parse acc.1 acc.2, []) else (acc.1, acc.2 ++ [c])

theorem splitNl_ne_nil (s : List Char) : splitNl s ≠ [] := by
  induction s with
  | nil => simp [splitNl]
  | cons c cs ih =>
    simp only [splitNl]
    split
    · simp
    · cases h : splitNl cs with
      | nil => exact absurd h ih
      | cons a l => simp [List.modifyHead]

theorem modifyHead_modifyHead {β : Type} (l : List β) (f g : β → β) :
    (l.modifyHead f).modifyHead g = l.modifyHead (fun x => g (f x)) := by
  cases l <;> simp [List.modifyHead]

theorem splitNl_append (a : List Char) (s : List Char) (h : '\n' ∉ a) :
    splitNl (a ++ s) = (splitNl s).modifyHead (fun l => a ++ l) := by
  induction a with
  | nil =>
    rw [List.nil_append]
    cases hs : splitNl s <;> simp [List.modifyHead]
  | cons c a' ih =>
    have hc : ¬(c = '\n') := fun hh => h (hh ▸ List.mem_cons_self _ _)
    have ha' : '\n' ∉ a' := fun hh => h (List.mem_cons_of_mem _ hh)
    rw [List.cons_append]
    show (if c = '\n' then [] :: splitNl (a' ++ s) else (splitNl (a' ++ s)).modifyHead (c :: ·)) = _
    rw [if_neg hc, ih ha', modifyHead_modifyHead]
    rfl

theorem splitNl_no_newline (buf : List Char) (h : '\n' ∉ buf) :
    splitNl buf = [buf] := by
  have h1 := splitNl_append buf [] h
  rw [List.append_nil] at h1
  rw [h1]
  simp [splitNl, List.modifyHead]

theorem getLastD_cons_eq {β : Type} (a d : β) (l : List β) :
    (a :: l).getLastD d = l.getLastD a := by
  cases l with
  | nil => rfl
  | cons x xs => simp [List.getLastD]

theorem getLastD_of_ne_nil {β : Type} (l : List β) (d1 d2 : β) (h : l ≠ []) :
    l.getLastD d1 = l.getLastD d2 := by
  cases l with
  | nil => exact absurd rfl h
  | cons x xs => rw [getLastD_cons_eq, getLastD_cons_eq]

theorem processChunk_eq_charFold {α : Type}
    (parse : List Char → Option (SSEMessage α)) (chunk : List Char) :
    ∀ (st : StreamState α) (buf : List Char), '\n' ∉ buf →
      processChunk parse (st, buf) chunk = chunk.foldl (charStep parse) (st, buf) := by
  induction chunk with
  | nil =>
    intro st buf h
    simp [processChunk, splitNl_no_newline buf h]
  | cons c cs ih =>
    intro st buf h
    by_cases hc : c = '\n'
    · subst hc
      have hne := splitNl_ne_nil cs
      have h1 : splitNl (buf ++ '\n' :: cs) = buf :: splitNl cs := by
        rw [splitNl_append buf _ h]
        simp [splitNl, List.modifyHead]
      have h2 : processChunk parse (st, buf) ('\n' :: cs) =
          processChunk parse (lineStep parse st buf, []) cs := by
        simp only [processChunk, h1, List.nil_append,
          List.dropLast_cons_of_ne_nil hne, List.foldl_cons]
        rw [getLastD_cons_eq, getLastD_of_ne_nil _ _ [] hne]
      rw [h2, ih _ _ (by simp), List.foldl_cons]
      simp [charStep]
    · have hbc : '\n' ∉ buf ++ [c] := by
        intro hmem
        rcases List.mem_append.1 hmem with h1 | h1
        · exact h h1
        · simp only [List.mem_singleton] at h1
          exact hc h1.symm
      have hlhs : processChunk parse (st, buf) (c :: cs) =
          processChunk parse (st, buf ++ [c]) cs := by
        simp only [processChunk]
        rw [show buf ++ c :: cs = (buf ++ [c]) ++ cs by simp]
      rw [hlhs, ih _ _ hbc, List.foldl_cons]
      simp [charStep, hc]

theorem charFold_buf_no_newline {α : Type}
    (parse : List Char → Option (SSEMessage α)) (s : List Char) :
    ∀ acc : StreamState α × List Char, '\n' ∉ acc.2 →
      '\n' ∉ (s.foldl (charStep parse) acc).2 := by
  induction s with
  | nil => intro acc h; exact h
  | cons c cs ih =>
    intro acc h
    rw [List.foldl_cons]
    by_cases hc : c = '\n'
    · subst hc
      apply ih
      simp [charStep]
    · apply ih
      simp only [charStep, if_neg hc]
      intro hmem
      rcases List.mem_append.1 hmem with h1 | h1
      · exact h h1
      · simp only [List.mem_singleton] at h1
        exact hc h1.symm

theorem foldl_processChunk_eq_charFold {α : Type}
    (parse : List Char → Option (SSEMessage α)) (chunks : List (List Char)) :
    ∀ acc : StreamState α × List Char, '\n' ∉ acc.2 →
      chunks.foldl (processChunk parse) acc =
        chunks.flatten.foldl (charStep parse) acc := by
  induction chunks with
  | nil => intro acc _; rfl
  | cons ch rest ih =>
    intro acc h
    obtain ⟨st, buf⟩ := acc
    rw [List.foldl_cons, processChunk_eq_charFold parse ch st buf h,
      ih _ (charFold_buf_no_newline parse ch (st, buf) h),
      List.flatten_cons, List.foldl_append]

/-- Claim C10: the SSE stream reducer is chunking-invariant — two chunk
sequences with equal concatenations produce the same final hook state and
buffer (messages split across chunk boundaries are reassembled before
parsing), and a line not prefixed with `data: ` is never interpreted. -/
theorem sse_chunking_invariant {α : Type}
    (parse : List Char → Option (SSEMessage α)) (prev : StreamState α)
    (chunks1 chunks2 : List (List Char)) (h : chunks1.flatten = chunks2.flatten) :
    processChunks parse (startStream prev) chunks1 =
        processChunks parse (startStream prev) chunks2 ∧
    ∀ (st : StreamState α) (line : List Char),
      ¬("data: ".toList.isPrefixOf line = true) → lineStep parse st line = st := by
  constructor
  · unfold processChunks
    rw [foldl_processChunk_eq_charFold parse chunks1 _ (by simp),
      foldl_processChunk_eq_charFold parse chunks2 _ (by simp), h]
  · intro st line hline
    unfold lineStep
    rw [if_neg hline]

/-- Witness for C10: the two chunkings `["data: x", "yz\nab"]` and
`["data: ", "xyz\na", "b"]` of the same byte stream yield identical states,
and the non-`data: ` line `"ab"` is ignored. -/
theorem sse_chunking_invariant_witness :
    processChunks (α := ℕ) (fun _ => none) (startStream ⟨[], false, none, none, none, 0, 0⟩)
        ["data: x".toList, "yz\nab".toList] =
      processChunks (α := ℕ) (fun _ => none) (startStream ⟨[], false, none, none, none, 0, 0⟩)
        ["data: ".toList, "xyz\na".toList, "b".toList] ∧
    lineStep (α := ℕ) (fun _ => none) ⟨[], false, none, none, none, 0, 0⟩ "ab".toList =
      ⟨[], false, none, none, none, 0, 0⟩ := by
  have h := sse_chunking_invariant (α := ℕ) (fun _ => none)
    ⟨[], false, none, none, none, 0, 0⟩
    ["data: x".toList, "yz\nab".toList]
    ["data: ".toList, "xyz\na".toList, "b".toList] (by decide)
  exact ⟨h.1, h.2 _ _ (by decide)⟩

/-! ## Monte Carlo percentile bands (backend, not among the sources) -/

/-- Modelled from the spec: the backend `monte_carlo` percentile band
computation is not among the available sources (the frontend `lineData` only
plots `percentile_paths`); per the spec, a percentile band is "the value
attained at a given percentile across a simulated path ensemble, per time
step" — the sorted ensemble values at each time index, indexed at the
requested percentile rank. -/
def percentileOfSample (q : ℕ) (values : List ℚ) : ℚ :=
  let sorted := values.insertionSort (· ≤ ·)
  sorted.getD (q * (sorted.length - 1) / 100) 0

/-- Modelled from the spec: the band value of percentile `q` at time index
`t`, aggregating each path's value at `t` across the ensemble. -/
def percentileAt (q : ℕ) (paths : List (List ℚ)) (t : ℕ) : ℚ :=
  percentileOfSample q (paths.map (fun path => path.getD t 0))

theorem getD_eq_get (l : List ℚ) (i : ℕ) (h : i < l.length) :
    l.getD i 0 = l.get ⟨i, h⟩ := by
  simp [List.getD_eq_getElem?_getD, List.getElem?_eq_getElem h, List.get_eq_getElem]

theorem percentileOfSample_mono (q1 q2 : ℕ) (h12 : q1 ≤ q2) (h2 : q2 ≤ 100)
    (values : List ℚ) :
    percentileOfSample q1 values ≤ percentileOfSample q2 values := by
  unfold percentileOfSample
  set sorted := values.insertionSort (· ≤ ·) with hs
  by_cases hn : sorted.length = 0
  · have hnil : sorted = [] := List.length_eq_zero.mp hn
    simp [hnil]
  · have hi1 : q1 * (sorted.length - 1) / 100 ≤ q2 * (sorted.length - 1) / 100 :=
      Nat.div_le_div_right (Nat.mul_le_mul_right _ h12)
    have hi2 : q2 * (sorted.length - 1) / 100 ≤ sorted.length - 1 := by
      calc q2 * (sorted.length - 1) / 100
          ≤ 100 * (sorted.length - 1) / 100 :=
            Nat.div_le_div_right (Nat.mul_le_mul_right _ h2)
        _ = sorted.length - 1 := Nat.mul_div_cancel_left _ (by norm_num)
    have hlt2 : q2 * (sorted.length - 1) / 100 < sorted.length := by omega
    have hlt1 : q1 * (sorted.length - 1) / 100 < sorted.length := by omega
    have hsorted : sorted.Sorted (· ≤ ·) := List.sorted_insertionSort _ values
    rw [getD_eq_get _ _ hlt1, getD_eq_get _ _ hlt2]
    exact hsorted.rel_get_of_le (Fin.mk_le_mk.mpr hi1)

/-- Claim C5: percentile bands are monotonically ordered at every time index
of every Monte Carlo run — 5th ≤ 25th ≤ 50th ≤ 75th ≤ 95th at each shared
time point. -/
theorem percentile_bands_monotone (paths : List (List ℚ)) (t : ℕ) :
    percentileAt 5 paths t ≤ percentileAt 25 paths t ∧
    percentileAt 25 paths t ≤ percentileAt 50 paths t ∧
    percentileAt 50 paths t ≤ percentileAt 75 paths t ∧
    percentileAt 75 paths t ≤ percentileAt 95 paths t := by
  refine ⟨?_, ?_, ?_, ?_⟩ <;>
    exact percentileOfSample_mono _ _ (by norm_num) (by norm_num) _

/-! ## Portfolio page optimize → monte-carlo hand-off
(frontend/src/pages/Portfolio.tsx) -/

structure OptimizeRequest where
  risk_tolerance : ℚ
  investment_amount : ℚ
  investment_horizon : ℚ
  num_assets : ℚ
  deriving DecidableEq

/-- The fields of the optimize response's `results.portfolio_config` consumed
by the page; the weights mapping is kept abstract in `W` (it is forwarded
untouched). -/
structure PortfolioConfig (W : Type) where
  weights : W
  selected_assets : List String
  deriving DecidableEq

structure OptimizeResults (W : Type) where
  portfolio_config : PortfolioConfig W
  deriving DecidableEq

structure MonteCarloRequest (W : Type) where
  weights : W
  investment_amount : ℚ
  investment_horizon : ℚ
  tickers : List String
  deriving DecidableEq

/-- Embedding of the `handleOptimize` / `runMonteCarlo` request plumbing: the
body posted to `/quantum/optimize` from the store inputs and, on success with
response `results`, the body posted to `/quantum/monte-carlo` (both closures
capture the same `amount` and `horizon` store values). -/
def handleOptimize {W : Type} (risk : List ℚ) (amount horizon assets : ℚ)
    (results : OptimizeResults W) : OptimizeRequest × MonteCarloRequest W :=
  ({ risk_tolerance := risk.head?.getD 0
     investment_amount := amount
     investment_horizon := horizon
     num_assets := assets },
   { weights := results.portfolio_config.weights
     investment_amount := amount
     investment_horizon := horizon
     tickers := results.portfolio_config.selected_assets })

/-- Claim C6: the monte-carlo request issued after a successful optimize
carries exactly the optimize response's `portfolio_config.weights` and
`selected_assets`, and the same `investment_amount` and `investment_horizon`
that were sent to optimize. -/
theorem optimize_feeds_monte_carlo {W : Type} (risk : List ℚ)
    (amount horizon assets : ℚ) (results : OptimizeResults W) :
    (handleOptimize risk amount horizon assets results).2.weights =
        results.portfolio_config.weights ∧
    (handleOptimize risk amount horizon assets results).2.tickers =
        results.portfolio_config.selected_assets ∧
    (handleOptimize risk amount horizon assets results).2.investment_amount =
        (handleOptimize risk amount horizon assets results).1.investment_amount ∧
    (handleOptimize risk amount horizon assets results).2.investment_horizon =
        (handleOptimize risk amount horizon assets results).1.investment_horizon :=
  ⟨rfl, rfl, rfl, rfl⟩

/-! ## Comparison page risk tolerance (frontend/src/pages/Comparison.tsx) -/

structure CompareRequest where
  risk_tolerance : ℚ
  investment_amount : ℚ
  investment_horizon : ℚ
  num_assets : ℚ
  deriving DecidableEq

/-- Embedding of `handleCompare`: the body posted to `/quantum/compare`; the
slider value (0–100, step 1) is divided by 100. -/
def handleCompare (riskTolerance investmentAmount timeHorizon numAssets : ℚ) :
    CompareRequest :=
  { risk_tolerance := riskTolerance / 100
    investment_amount := investmentAmount
    investment_horizon := timeHorizon
    num_assets := numAssets }

inductive OptimizerError where
  | invalidToleranceError
  deriving DecidableEq

/-- Modelled from the spec: the optimizer's request validation is backend code
not among the available sources; per the spec it fails with
`InvalidToleranceError` if the tolerance is outside [0,1]. -/
def checkTolerance (t : ℚ) : Except OptimizerError Unit :=
  if t < 0 ∨ 1 < t then .error .invalidToleranceError else .ok ()

/-- Claim C7: for every slider value `v ∈ [0,100]` the compare request has
`risk_tolerance = v/100 ∈ [0,1]`, so the `InvalidToleranceError` branch is
unreachable for requests produced by this page. -/
theorem compare_tolerance_in_range (v a hz n : ℚ) (h0 : 0 ≤ v) (h100 : v ≤ 100) :
    (handleCompare v a hz n).risk_tolerance = v / 100 ∧
    0 ≤ (handleCompare v a hz n).risk_tolerance ∧
    (handleCompare v a hz n).risk_tolerance ≤ 1 ∧
    checkTolerance (handleCompare v a hz n).risk_tolerance = .ok () := by
  have h1 : (0 : ℚ) ≤ v / 100 := by positivity
  have h2 : v / 100 ≤ 1 := by
    rw [div_le_one (by norm_num)]
    linarith
  have hno : ¬((v / 100 : ℚ) < 0 ∨ 1 < v / 100) := by
    push_neg
    exact ⟨h1, h2⟩
  refine ⟨rfl, h1, h2, ?_⟩
  show checkTolerance (v / 100) = .ok ()
  unfold checkTolerance
  rw [if_neg hno]

/-- Witness for C7: the mid-scale slider value 50 produces tolerance 1/2,
which the optimizer accepts. -/
theorem compare_tolerance_in_range_witness :
    (handleCompare 50 10000 5 4).risk_tolerance = 50 / 100 ∧
    0 ≤ (handleCompare 50 10000 5 4).risk_tolerance ∧
    (handleCompare 50 10000 5 4).risk_tolerance ≤ 1 ∧
    checkTolerance (handleCompare 50 10000 5 4).risk_tolerance = .ok () :=
  compare_tolerance_in_range 50 10000 5 4 (by norm_num) (by norm_num)

/-! ## Backtest page cache clear (frontend/src/pages/Backtest.tsx) -/

structure ApiRequest where
  method : String
  path : String
  deriving DecidableEq

structure PortfolioData (W : Type) where
  weights : W
  tickers : List String
  investmentAmount : ℚ
  deriving DecidableEq

structure BacktestPageState (W R : Type) where
  backtestData : Option R
  startDate : String
  endDate : String
  portfolioData : PortfolioData W
  clearingCache : Bool
  deriving DecidableEq

/-- Embedding of `handleClearCache`: an explicit DELETE of
`/quantum/backtest/cache` is issued; on success the stored backtest result is
set to null, on failure only the alert fires; `clearingCache` ends false in
the `finally` block either way.  The backtest result type is abstract in
`R`. -/
def handleClearCache {W R : Type} (success : Bool) (st : BacktestPageState W R) :
    ApiRequest × BacktestPageState W R :=
  ({ method := "DELETE", path := "/quantum/backtest/cache" },
   if success then { st with backtestData := none, clearingCache := false }
   else { st with clearingCache := false })

/-- Claim C8: the backtest cache clear is a first-class operation — it sends
an explicit invalidation request, on acknowledgement nulls only the stored
backtest result while leaving the selected dates and the portfolio data
unchanged, and on failure leaves the stored backtest result unchanged. -/
theorem clear_cache_first_class {W R : Type} (st : BacktestPageState W R) :
    (∀ success : Bool, (handleClearCache success st).1 =
        { method := "DELETE", path := "/quantum/backtest/cache" }) ∧
    ((handleClearCache true st).2.backtestData = none ∧
      (handleClearCache true st).2.startDate = st.startDate ∧
      (handleClearCache true st).2.endDate = st.endDate ∧
      (handleClearCache true st).2.portfolioData = st.portfolioData) ∧
    ((handleClearCache false st).2.backtestData = st.backtestData ∧
      (handleClearCache false st).2.startDate = st.startDate ∧
      (handleClearCache false st).2.endDate = st.endDate ∧
      (handleClearCache false st).2.portfolioData = st.portfolioData) :=
  ⟨fun _ => rfl, ⟨rfl, rfl, rfl, rfl⟩, ⟨rfl, rfl, rfl, rfl⟩⟩

end AuraFinance
